import Mathlib

/-!
Verification of the todo-list P2P replication core (Laic7092/todo).

Shallow embedding of:
- the operation-log data model (OperateRecord, the IndexedDB-backed journal
  store named "operates" keyed by auto-increment numbers for appended records
  and by record-id strings for merge overwrites);
- the diff-merge algorithm of the sync composable (function diff);
- the data handler of the sync composable (function dataHandler);
- the wrapped store writes of SilenceIDB (tx / wrapStore with the
  recordOperate flag, function idbWrite here);
- the todo-list composable operations add / remove / update / clear;
- the identity acquisition loop of P2PClient.init.

The IndexedDB collaborator is modelled by its capability contract as the
specification scopes it (section 1: the local durable key/value store is an
external collaborator): add fails when the key is already present, put
upserts at the explicit key or at the payload's in-line key, delete removes,
clear empties; each call is atomic.  A payload's in-line key (the keyPath
field of the stored object) is represented explicitly by the inlineKey field
of Payload.
-/

/-- Operation kinds, from enum Operate in db.ts. -/
inductive Operate
  | add
  | put
  | delete
  | clear
deriving DecidableEq, Repr

/-- A stored value together with its in-line (keyPath) key. -/
structure Payload where
  inlineKey : String
  value : String
deriving DecidableEq, Repr

/-- Journal record, from interface OperateRecord in db.ts. -/
structure OperateRecord where
  id : String
  timestamp : Nat
  dbName : String
  storeName : String
  operateType : Operate
  key : Option String
  data : Option Payload
deriving DecidableEq, Repr

/-- The journal resource name, constant OPERATE_ID in the sync composable. -/
def OPERATE_ID : String := "operates"

/-- Keys of the operates object store: auto-increment numbers for appended
records, explicit strings for merge overwrites.  IndexedDB orders numbers
before strings. -/
inductive JKey
  | num (n : Nat)
  | str (s : String)
deriving DecidableEq, Repr

/-- Lexicographic comparison of character lists, the order IndexedDB uses
for string keys (written out structurally so that it evaluates by kernel
reduction). -/
def charListLt : List Char → List Char → Bool
  | [], [] => false
  | [], _ :: _ => true
  | _ :: _, [] => false
  | a :: as, b :: bs => if a < b then true else if b < a then false else charListLt as bs

def strLt (a b : String) : Bool := charListLt a.data b.data

/-- IndexedDB key ordering restricted to the two key kinds the journal uses:
every number sorts before every string. -/
def jkeyLt : JKey → JKey → Bool
  | JKey.num a, JKey.num b => a < b
  | JKey.num _, JKey.str _ => true
  | JKey.str _, JKey.num _ => false
  | JKey.str a, JKey.str b => strLt a b

/-- A target object store: association list from key to stored payload. -/
abbrev Store := List (String × Payload)

def storeHas (s : Store) (k : String) : Bool := s.any (fun p => p.1 == k)

def storePut (s : Store) (k : String) (v : Payload) : Store :=
  if storeHas s k then s.map (fun p => if p.1 == k then (p.1, v) else p)
  else s ++ [(k, v)]

def storeDelete (s : Store) (k : String) : Store := s.filter (fun p => !(p.1 == k))

/-- Errors of the storage collaborator surfaced to callers. -/
inductive StoreErr
  | constraintError
  | dataError
deriving DecidableEq, Repr

/-- One store write under the storage capability contract: add rejects an
existing key, put upserts at the explicit key or else at the in-line key,
delete removes, clear empties. -/
def applyWrite (s : Store) (op : Operate) (key : Option String) (data : Option Payload) :
    Except StoreErr Store :=
  match op with
  | Operate.add =>
    match data with
    | none => Except.error StoreErr.dataError
    | some p =>
      if storeHas s p.inlineKey then Except.error StoreErr.constraintError
      else Except.ok (s ++ [(p.inlineKey, p)])
  | Operate.put =>
    match data with
    | none => Except.error StoreErr.dataError
    | some p => Except.ok (storePut s (key.getD p.inlineKey) p)
  | Operate.delete =>
    match key with
    | none => Except.error StoreErr.dataError
    | some k => Except.ok (storeDelete s k)
  | Operate.clear => Except.ok []

/-- Full database state: the named target stores, the operates journal
(kept sorted by IndexedDB key order), and the journal's auto-increment
key generator. -/
structure DBState where
  stores : List (String × Store)
  journal : List (JKey × OperateRecord)
  nextAuto : Nat
deriving DecidableEq, Repr

def getStore (stores : List (String × Store)) (name : String) : Store :=
  ((stores.find? (fun p => p.1 == name)).map Prod.snd).getD []

def setStore (stores : List (String × Store)) (name : String) (s : Store) :
    List (String × Store) :=
  if stores.any (fun p => p.1 == name)
  then stores.map (fun p => if p.1 == name then (p.1, s) else p)
  else stores ++ [(name, s)]

/-- Insert or replace an entry of the journal store, keeping it sorted by
IndexedDB key order (models an IDBObjectStore put against operates). -/
def journalPut : List (JKey × OperateRecord) → JKey → OperateRecord →
    List (JKey × OperateRecord)
  | [], k, r => [(k, r)]
  | p :: rest, k, r =>
    if p.1 = k then (k, r) :: rest
    else if jkeyLt k p.1 then (k, r) :: p :: rest
    else p :: journalPut rest k r

/-- getAll against the operates store: all records in key order. -/
def getAllJournal (db : DBState) : List OperateRecord := db.journal.map Prod.snd

/-- The record written by recordOperation in db.ts: fresh id and current
timestamp are inputs of the model; dbName is the constant database name. -/
def mkOperateRecord (rid : String) (now : Nat) (storeName : String) (op : Operate)
    (key : Option String) (data : Option Payload) : OperateRecord :=
  ⟨rid, now, "todoList", storeName, op, key, data⟩

/-- recordOperation in db.ts: append the record to the operates store under
the next auto-increment key. -/
def journalAppend (db : DBState) (rec : OperateRecord) : DBState :=
  { db with
    journal := journalPut db.journal (JKey.num db.nextAuto) rec
    nextAuto := db.nextAuto + 1 }

/-- The key recorded by wrapStore in db.ts for each operation kind. -/
def recordedKey (op : Operate) (key : Option String) (data : Option Payload) :
    Option String :=
  match op with
  | Operate.add => data.map Payload.inlineKey
  | Operate.put =>
    match key with
    | some k => some k
    | none => data.map Payload.inlineKey
  | Operate.delete => key
  | Operate.clear => none

/-- The data recorded by wrapStore in db.ts for each operation kind. -/
def recordedData (op : Operate) (data : Option Payload) : Option Payload :=
  match op with
  | Operate.add => data
  | Operate.put => data
  | Operate.delete => none
  | Operate.clear => none

/-- A write through SilenceIDB.tx / wrapStore against a target store: the
store mutation runs first; on success with recordOperate true a journal
record is appended (wrapStore recordOperation), with recordOperate false no
journal record is written. -/
def idbWrite (db : DBState) (storeName : String) (op : Operate) (key : Option String)
    (data : Option Payload) (recordOperate : Bool) (rid : String) (now : Nat) :
    Except StoreErr DBState :=
  match applyWrite (getStore db.stores storeName) op key data with
  | Except.error e => Except.error e
  | Except.ok s =>
    let db1 : DBState := { db with stores := setStore db.stores storeName s }
    Except.ok
      (if recordOperate then
        journalAppend db1
          (mkOperateRecord rid now storeName op (recordedKey op key data)
            (recordedData op data))
      else db1)

/-- JavaScript Map set on an insertion-ordered association list: an existing
key keeps its position and gets the new value, a new key is appended. -/
def mapSet (m : List (String × OperateRecord)) (r : OperateRecord) :
    List (String × OperateRecord) :=
  if m.any (fun p => p.1 == r.id) then
    m.map (fun p => if p.1 == r.id then (p.1, r) else p)
  else m ++ [(r.id, r)]

/-- Building the id-keyed Map of diff steps 1-2: records.forEach(set). -/
def toMap (rs : List OperateRecord) : List (String × OperateRecord) :=
  rs.foldl mapSet []

def mapHas (m : List (String × OperateRecord)) (i : String) : Bool :=
  m.any (fun p => p.1 == i)

def mapGet (m : List (String × OperateRecord)) (i : String) : Option OperateRecord :=
  (m.find? (fun p => p.1 == i)).map Prod.snd

/-- The records pushed for one shared id in diff step 3.3: the strictly
newer record by timestamp, then additionally the delete record when exactly
one side's record is a delete. -/
def sharedPush (l : OperateRecord) : Option OperateRecord → List OperateRecord
  | none => []
  | some r =>
    (if l.timestamp > r.timestamp then [l]
     else if r.timestamp > l.timestamp then [r]
     else [])
    ++
    (if r.operateType = Operate.delete ∧ ¬ l.operateType = Operate.delete then [r]
     else if l.operateType = Operate.delete ∧ ¬ r.operateType = Operate.delete then [l]
     else [])

/-- Steps 1-4 of diff in the sync composable: build both maps, collect the
remote-only records, the local-only records and the shared-id pushes, then
sort ascending by timestamp (JavaScript sort is stable, as is insertionSort). -/
def diffSelect (localRecords remoteRecords : List OperateRecord) : List OperateRecord :=
  let localMap := toMap localRecords
  let remoteMap := toMap remoteRecords
  let part1 := (remoteMap.filter (fun p => !mapHas localMap p.1)).map Prod.snd
  let part2 := (localMap.filter (fun p => !mapHas remoteMap p.1)).map Prod.snd
  let part3 := localMap.flatMap (fun p => sharedPush p.2 (mapGet remoteMap p.1))
  List.insertionSort (fun a b => a.timestamp ≤ b.timestamp) (part1 ++ part2 ++ part3)

/-- The store mutation of one selected record in diff step 5: the switch
dispatches add, put and delete with recordOperate false; a clear record has
no case and mutates nothing. -/
def diffStoreApply (db : DBState) (op : OperateRecord) : Except StoreErr DBState :=
  match op.operateType with
  | Operate.add => idbWrite db op.storeName Operate.add none op.data false "" 0
  | Operate.put => idbWrite db op.storeName Operate.put op.key op.data false "" 0
  | Operate.delete => idbWrite db op.storeName Operate.delete op.key none false "" 0
  | Operate.clear => Except.ok db

/-- The journal overwrite of diff step 5: put the winning record into the
operates store under the record's own id as explicit key, recordOperate
false. -/
def journalPutById (db : DBState) (op : OperateRecord) : DBState :=
  { db with journal := journalPut db.journal (JKey.str op.id) op }

/-- One iteration of the apply loop of diff step 5: on store failure the
whole record (store mutation and journal overwrite) is caught and skipped. -/
def diffApplyOne (db : DBState) (op : OperateRecord) : DBState :=
  match diffStoreApply db op with
  | Except.error _ => db
  | Except.ok db1 => journalPutById db1 op

def diffApplyAll (db : DBState) (ops : List OperateRecord) : DBState :=
  ops.foldl diffApplyOne db

/-- The whole diff function: select, apply in timestamp order, and return
the length of operationsToSync (step 6). -/
def diffRun (db : DBState) (localRecords remoteRecords : List OperateRecord) :
    DBState × Nat :=
  let ops := diffSelect localRecords remoteRecords
  (diffApplyAll db ops, ops.length)

/-- Modelled from the spec: the count of operations actually applied to the
target store in one diff run, that is the number of selected records whose
store mutation succeeds while the state is threaded exactly as the apply
loop threads it.  The code does not compute this quantity; it is needed to
compare the returned value against the specification's words. -/
def specAppliedCount (db : DBState) : List OperateRecord → Nat
  | [] => 0
  | op :: rest =>
    match diffStoreApply db op with
    | Except.ok db1 => 1 + specAppliedCount (journalPutById db1 op) rest
    | Except.error _ => specAppliedCount db rest

/-- Message kinds of the sync composable. -/
inductive MsgType
  | requst
  | response
deriving DecidableEq, Repr

/-- The untyped data field of a message: absent, a single payload, or a
journal snapshot. -/
inductive MsgData
  | none
  | payload (p : Payload)
  | records (rs : List OperateRecord)
deriving DecidableEq, Repr

/-- Wire message of the sync composable (interface Msg); the source field
names from and to are renamed because from is a Lean keyword. -/
structure Msg where
  type : MsgType
  fromId : String
  toId : String
  id : String
  operate : Option Operate
  data : MsgData
deriving DecidableEq, Repr

def msgPayload : MsgData → Option Payload
  | MsgData.payload p => some p
  | _ => none

def msgRecords : MsgData → List OperateRecord
  | MsgData.records rs => rs
  | _ => []

/-- Model of id.split on the slash character, structural on the character
list so that it evaluates by kernel reduction. -/
def splitCharAux : List Char → List Char → List (List Char)
  | [], acc => [acc.reverse]
  | c :: cs, acc =>
    if c = '/' then acc.reverse :: splitCharAux cs []
    else splitCharAux cs (c :: acc)

def splitSlash (s : String) : List String :=
  (splitCharAux s.data []).map List.asString

/-- One silent store mutation as issued by dataHandler (recordOperate false,
no journal transaction); a rejected mutation leaves the state unchanged
because nothing further runs in the handler. -/
def silentRun (db : DBState) (storeName : String) (op : Operate) (key : Option String)
    (data : Option Payload) : DBState :=
  ((idbWrite db storeName op key data false "" 0).toOption).getD db

/-- The state effect of dataHandler in the sync composable.  A request only
answers (no local mutation).  A response whose id is the journal resource
runs diff against the local journal; independently, a response whose operate
field is add or put applies that single mutation silently (recordOperate
false) to the store named by the id; any other operate value is ignored. -/
def dataHandler (db : DBState) (msg : Msg) : DBState :=
  match msg.type with
  | MsgType.requst => db
  | MsgType.response =>
    let parts := splitSlash msg.id
    let storeName := parts.headD ""
    let key := parts[1]?
    let db1 :=
      if msg.id = OPERATE_ID then (diffRun db (getAllJournal db) (msgRecords msg.data)).1
      else db
    match msg.operate with
    | some Operate.add => silentRun db1 storeName Operate.add none (msgPayload msg.data)
    | some Operate.put => silentRun db1 storeName Operate.put key (msgPayload msg.data)
    | _ => db1

/-- add of the todo-list composable: a journaled add against the todoList
store; errors are caught and logged, leaving the state unchanged. -/
def todoAdd (db : DBState) (rid : String) (now : Nat) (text : String) (itemId : String) :
    DBState :=
  match idbWrite db "todoList" Operate.add none (some ⟨itemId, text⟩) true rid now with
  | Except.ok db1 => db1
  | Except.error _ => db

/-- remove of the todo-list composable: a journaled delete. -/
def todoRemove (db : DBState) (rid : String) (now : Nat) (itemId : String) : DBState :=
  match idbWrite db "todoList" Operate.delete (some itemId) none true rid now with
  | Except.ok db1 => db1
  | Except.error _ => db

/-- update of the todo-list composable: a journaled put with the in-line key. -/
def todoUpdate (db : DBState) (rid : String) (now : Nat) (item : Payload) : DBState :=
  match idbWrite db "todoList" Operate.put none (some item) true rid now with
  | Except.ok db1 => db1
  | Except.error _ => db

/-- idb.clear against the operates store with default journaling, as invoked
by the composable's clear: the wrapped clear empties the operates store
itself, then recordOperation appends the clear record to it. -/
def clearOperates (db : DBState) (rid : String) (now : Nat) : DBState :=
  journalAppend { db with journal := [] }
    (mkOperateRecord rid now "operates" Operate.clear none none)

/-- clear of the todo-list composable: a journaled clear of the todoList
store followed by idb.clear of the operates store. -/
def todoClear (db : DBState) (rid1 : String) (now1 : Nat) (rid2 : String) (now2 : Nat) :
    DBState :=
  let db1 :=
    match idbWrite db "todoList" Operate.clear none none true rid1 now1 with
    | Except.ok d => d
    | Except.error _ => db
  clearOperates db1 rid2 now2

/-- The identity acquisition loop of P2PClient.init: try baseToken+i for
i from 0; a taken candidate moves to the next, the last taken candidate
throws; a free candidate is claimed.  With maxPeers zero the loop body never
runs and init resolves without a peer (modelled as ok none).  The fuel
argument counts the iterations that remain, maxPeers minus i, so that the
recursion is structural. -/
def initGo (taken : List String) (baseToken : String) (maxPeers : Nat) :
    Nat → Nat → Except String (Option String)
  | _, 0 => Except.ok none
  | i, fuel + 1 =>
    if taken.contains (baseToken ++ toString i) then
      if i = maxPeers - 1 then Except.error "All peer IDs are unavailable"
      else initGo taken baseToken maxPeers (i + 1) fuel
    else Except.ok (some (baseToken ++ toString i))

def initAcquire (taken : List String) (baseToken : String) (maxPeers : Nat) :
    Except String (Option String) :=
  initGo taken baseToken maxPeers 0 maxPeers

/-- Success test for a storage result. -/
def exceptIsOk {ε α : Type} : Except ε α → Bool
  | Except.ok _ => true
  | Except.error _ => false

instance {ε α : Type} [DecidableEq ε] [DecidableEq α] : DecidableEq (Except ε α) :=
  fun a b =>
    match a, b with
    | Except.ok x, Except.ok y =>
      if h : x = y then isTrue (by rw [h]) else isFalse (by intro hc; cases hc; exact h rfl)
    | Except.error x, Except.error y =>
      if h : x = y then isTrue (by rw [h]) else isFalse (by intro hc; cases hc; exact h rfl)
    | Except.ok _, Except.error _ => isFalse (by intro hc; cases hc)
    | Except.error _, Except.ok _ => isFalse (by intro hc; cases hc)

/-- Well-formedness of the journal's key generator: every numeric key is
below nextAuto, so an append never collides with an existing key. -/
def autoFresh (db : DBState) : Bool :=
  db.journal.all (fun p =>
    match p.1 with
    | JKey.num n => n < db.nextAuto
    | JKey.str _ => true)

theorem idbWrite_false_journal (db : DBState) (storeName : String) (op : Operate)
    (key : Option String) (data : Option Payload) (rid : String) (now : Nat)
    (db' : DBState)
    (h : idbWrite db storeName op key data false rid now = Except.ok db') :
    db'.journal = db.journal ∧ db'.nextAuto = db.nextAuto := by
  unfold idbWrite at h
  cases happ : applyWrite (getStore db.stores storeName) op key data with
  | error e => rw [happ] at h; cases h
  | ok s =>
    rw [happ] at h
    simp only [Bool.false_eq_true, if_false, Except.ok.injEq] at h
    subst h
    exact ⟨rfl, rfl⟩

theorem diffStoreApply_journal (db : DBState) (op : OperateRecord) (db' : DBState)
    (h : diffStoreApply db op = Except.ok db') :
    db'.journal = db.journal ∧ db'.nextAuto = db.nextAuto := by
  unfold diffStoreApply at h
  cases hop : op.operateType <;> rw [hop] at h
  · exact idbWrite_false_journal _ _ _ _ _ _ _ _ h
  · exact idbWrite_false_journal _ _ _ _ _ _ _ _ h
  · exact idbWrite_false_journal _ _ _ _ _ _ _ _ h
  · cases h; exact ⟨rfl, rfl⟩

/-- C10: for every mutation performed with recordOperate false (the silent
apply path used for remote-derived operations, through tx and wrapStore),
nothing is written to the operates journal: the journal contents and its
key generator are unchanged by the mutation.  The function diffStoreApply
and the single-operation branch of dataHandler invoke exactly this path. -/
theorem c10_silent_mode_journal_frame (db : DBState) (storeName : String)
    (op : Operate) (key : Option String) (data : Option Payload) (rid : String)
    (now : Nat) (db' : DBState)
    (h : idbWrite db storeName op key data false rid now = Except.ok db') :
    db'.journal = db.journal ∧ db'.nextAuto = db.nextAuto :=
  idbWrite_false_journal db storeName op key data rid now db' h

theorem c10_silent_mode_journal_frame_witness :
    idbWrite (⟨[], [(JKey.num 1, ⟨"q", 4, "todoList", "todoList", Operate.add, none, none⟩)], 2⟩ : DBState)
      "todoList" Operate.put none (some ⟨"k", "v"⟩) false "rid" 9 =
      Except.ok (⟨[("todoList", [("k", ⟨"k", "v"⟩)])],
        [(JKey.num 1, ⟨"q", 4, "todoList", "todoList", Operate.add, none, none⟩)], 2⟩ : DBState) ∧
    (⟨[("todoList", [("k", ⟨"k", "v"⟩)])],
      [(JKey.num 1, ⟨"q", 4, "todoList", "todoList", Operate.add, none, none⟩)], 2⟩ : DBState).journal =
    (⟨[], [(JKey.num 1, ⟨"q", 4, "todoList", "todoList", Operate.add, none, none⟩)], 2⟩ : DBState).journal :=
  ⟨by decide,
   (c10_silent_mode_journal_frame
      (⟨[], [(JKey.num 1, ⟨"q", 4, "todoList", "todoList", Operate.add, none, none⟩)], 2⟩ : DBState)
      "todoList" Operate.put none (some ⟨"k", "v"⟩) "rid" 9
      (⟨[("todoList", [("k", ⟨"k", "v"⟩)])],
        [(JKey.num 1, ⟨"q", 4, "todoList", "todoList", Operate.add, none, none⟩)], 2⟩ : DBState)
      (by decide)).1⟩

/-- C8: if the store mutation of one selected record fails, the record is
caught and skipped in its entirety, the remaining records of the batch are
still applied in order, and the records applied before the failure are kept
(the run over the batch with the failing record equals the run over the
batch without it, from the same start state). -/
theorem diffApplyOne_of_error (db : DBState) (op : OperateRecord)
    (h : exceptIsOk (diffStoreApply db op) = false) : diffApplyOne db op = db := by
  unfold diffApplyOne
  cases hd : diffStoreApply db op with
  | ok d => rw [hd] at h; simp [exceptIsOk] at h
  | error e => rfl

theorem diffApplyAll_append (db : DBState) (l1 l2 : List OperateRecord) :
    diffApplyAll db (l1 ++ l2) = diffApplyAll (diffApplyAll db l1) l2 := by
  unfold diffApplyAll
  exact List.foldl_append _ _ _ _

theorem c8_failure_skipped_rest_applied (db : DBState) (pre : List OperateRecord)
    (op : OperateRecord) (post : List OperateRecord)
    (h : exceptIsOk (diffStoreApply (diffApplyAll db pre) op) = false) :
    diffApplyAll db (pre ++ op :: post) = diffApplyAll db (pre ++ post) := by
  rw [diffApplyAll_append, diffApplyAll_append]
  show diffApplyAll (diffApplyOne (diffApplyAll db pre) op) post =
    diffApplyAll (diffApplyAll db pre) post
  rw [diffApplyOne_of_error _ _ h]

theorem c8_failure_skipped_rest_applied_witness :
    exceptIsOk (diffStoreApply
      (diffApplyAll (⟨[("todoList", [("w", ⟨"w", "W"⟩)])], [], 1⟩ : DBState) [])
      ⟨"jw", 1, "todoList", "todoList", Operate.add, some "w", some ⟨"w", "W2"⟩⟩) = false ∧
    diffApplyAll (⟨[("todoList", [("w", ⟨"w", "W"⟩)])], [], 1⟩ : DBState)
      ([] ++ ⟨"jw", 1, "todoList", "todoList", Operate.add, some "w", some ⟨"w", "W2"⟩⟩ ::
        [⟨"jz", 2, "todoList", "todoList", Operate.put, some "z", some ⟨"z", "Z"⟩⟩]) =
    diffApplyAll (⟨[("todoList", [("w", ⟨"w", "W"⟩)])], [], 1⟩ : DBState)
      ([] ++ [⟨"jz", 2, "todoList", "todoList", Operate.put, some "z", some ⟨"z", "Z"⟩⟩]) :=
  ⟨by decide, c8_failure_skipped_rest_applied _ _ _ _ (by decide)⟩

def c1Local : OperateRecord :=
  ⟨"j1", 20, "todoList", "todoList", Operate.delete, some "t1", none⟩

def c1Remote : OperateRecord :=
  ⟨"j1", 25, "todoList", "todoList", Operate.put, some "t1", some ⟨"t1", "milk-edited"⟩⟩

def c1Db : DBState :=
  ⟨[("todoList", [("t1", ⟨"t1", "milk"⟩)])], [(JKey.num 1, c1Local)], 2⟩

/-- C1 evaluated at the failing input: with a local Delete at timestamp 20
and a remote Put at timestamp 25 for the same id, diff pushes both records
(the timestamp winner and the delete), sorts ascending by timestamp, applies
the Delete first and the Put last, so the target store ends with the item
present (the Put payload), not deleted as the claim requires. -/
theorem c1_delete_override_not_converged :
    diffSelect [c1Local] [c1Remote] = [c1Local, c1Remote] ∧
    getStore (diffRun c1Db [c1Local] [c1Remote]).1.stores "todoList" =
      [("t1", ⟨"t1", "milk-edited"⟩)] ∧
    storeHas (getStore (diffRun c1Db [c1Local] [c1Remote]).1.stores "todoList") "t1" = true := by
  decide

def c4XRec : OperateRecord :=
  ⟨"ax", 1, "todoList", "todoList", Operate.put, some "k", some ⟨"k", "A"⟩⟩

def c4YRec : OperateRecord :=
  ⟨"by", 2, "todoList", "todoList", Operate.put, some "k", some ⟨"k", "B"⟩⟩

def c4Db0 : DBState :=
  ⟨[("todoList", [("k", ⟨"k", "A"⟩)])], [(JKey.num 1, c4XRec)], 2⟩

def c4Db1 : DBState := (diffRun c4Db0 (getAllJournal c4Db0) [c4YRec]).1

/-- C4 evaluated at the failing input: after the first diff run against the
remote journal the target store holds the remote value B; running diff again
against the same remote journal re-selects the locally-only record (count 1,
not 0) and re-applies its Put, reverting the target store from B back to A,
so the second application is not idempotent. -/
theorem c4_second_apply_not_idempotent :
    getStore c4Db1.stores "todoList" = [("k", ⟨"k", "B"⟩)] ∧
    (diffRun c4Db1 (getAllJournal c4Db1) [c4YRec]).2 = 1 ∧
    getStore (diffRun c4Db1 (getAllJournal c4Db1) [c4YRec]).1.stores "todoList" =
      [("k", ⟨"k", "A"⟩)] := by
  decide

def c6Rec : OperateRecord :=
  ⟨"j6", 3, "todoList", "todoList", Operate.add, some "a", some ⟨"a", "txt"⟩⟩

def c6Db : DBState :=
  ⟨[("todoList", [("a", ⟨"a", "txt"⟩)])], [(JKey.num 1, c6Rec)], 2⟩

/-- C6 counterexample: the public clear operation of the todo-list
composable clears the operates journal: a journal record existing before
clear is gone afterwards, and the journal holds exactly the single record
that logs the clearing of the journal store itself. -/
theorem c6_clear_wipes_journal :
    c6Rec ∈ getAllJournal c6Db ∧
    c6Rec ∉ getAllJournal (todoClear c6Db "cid1" 10 "cid2" 11) ∧
    getAllJournal (todoClear c6Db "cid1" 10 "cid2" 11) =
      [mkOperateRecord "cid2" 11 "operates" Operate.clear none none] := by
  decide

def c7Db : DBState := ⟨[("todoList", [("t1", ⟨"t1", "p"⟩)])], [], 1⟩

def c7MsgDel : Msg :=
  ⟨MsgType.response, "peerA", "peerB", "todoList/t1", some Operate.delete, MsgData.none⟩

/-- C7 counterexample: a received Response carrying an already-resolved
Delete operation is not applied: the handler leaves the state unchanged and
the addressed item is still present, while the claim requires the mutation
to be applied for Delete as well. -/
theorem c7_delete_operate_ignored :
    dataHandler c7Db c7MsgDel = c7Db ∧
    storeHas (getStore (dataHandler c7Db c7MsgDel).stores "todoList") "t1" = true := by
  decide

def c9Rec : OperateRecord :=
  ⟨"j9", 5, "todoList", "todoList", Operate.add, some "k9", some ⟨"k9", "V"⟩⟩

def c9Db : DBState := ⟨[("todoList", [("k9", ⟨"k9", "W"⟩)])], [], 1⟩

/-- C9 counterexample: with a remote Add whose key already exists locally,
the store mutation fails and is skipped (zero operations actually applied,
state unchanged), yet diff returns 1: the returned value counts selected
records, failures included, not operations actually applied. -/
theorem c9_count_includes_failures :
    (diffRun c9Db [] [c9Rec]).2 = 1 ∧
    specAppliedCount c9Db (diffSelect [] [c9Rec]) = 0 ∧
    (diffRun c9Db [] [c9Rec]).1 = c9Db := by
  decide

/-- C9 amended: diff returns the number of selected records (application
attempts); whenever every selected record's store mutation succeeds this
equals the count of operations actually applied. -/
theorem c9_returns_selected_count (db : DBState) (l r : List OperateRecord) :
    (diffRun db l r).2 = (diffSelect l r).length ∧
    (specAppliedCount db (diffSelect l r) = (diffSelect l r).length →
      (diffRun db l r).2 = specAppliedCount db (diffSelect l r)) := by
  refine ⟨rfl, fun h => ?_⟩
  rw [h]
  rfl

theorem c9_returns_selected_count_witness :
    specAppliedCount (⟨[], [], 1⟩ : DBState)
      (diffSelect [] [⟨"jp", 7, "todoList", "todoList", Operate.put, some "p", some ⟨"p", "P"⟩⟩]) =
      (diffSelect [] [⟨"jp", 7, "todoList", "todoList", Operate.put, some "p", some ⟨"p", "P"⟩⟩]).length ∧
    (diffRun (⟨[], [], 1⟩ : DBState) []
      [⟨"jp", 7, "todoList", "todoList", Operate.put, some "p", some ⟨"p", "P"⟩⟩]).2 =
    specAppliedCount (⟨[], [], 1⟩ : DBState)
      (diffSelect [] [⟨"jp", 7, "todoList", "todoList", Operate.put, some "p", some ⟨"p", "P"⟩⟩]) :=
  ⟨by decide, (c9_returns_selected_count _ _ _).2 (by decide)⟩

theorem initGo_reaches_free (taken : List String) (baseToken : String) (maxPeers : Nat)
    (tgt : Nat) (htgt : tgt < maxPeers)
    (htaken : ∀ j, j < tgt → taken.contains (baseToken ++ toString j) = true)
    (hfree : taken.contains (baseToken ++ toString tgt) = false) :
    ∀ fuel i, i + fuel = maxPeers → i ≤ tgt →
      initGo taken baseToken maxPeers i fuel =
        Except.ok (some (baseToken ++ toString tgt)) := by
  intro fuel
  induction fuel with
  | zero =>
    intro i hi hle
    omega
  | succ f ih =>
    intro i hi hle
    by_cases heq : i = tgt
    · subst heq
      unfold initGo
      rw [hfree]
      simp
    · have hlt : i < tgt := lt_of_le_of_ne hle heq
      unfold initGo
      rw [htaken i hlt]
      have hne : ¬ i = maxPeers - 1 := by omega
      rw [if_neg hne]
      exact ih (i + 1) (by omega) (by omega)

theorem initGo_exhausted (taken : List String) (baseToken : String) (maxPeers : Nat)
    (htaken : ∀ j, j < maxPeers → taken.contains (baseToken ++ toString j) = true) :
    ∀ fuel i, i + fuel = maxPeers → 1 ≤ fuel →
      initGo taken baseToken maxPeers i fuel =
        Except.error "All peer IDs are unavailable" := by
  intro fuel
  induction fuel with
  | zero => intro i hi hf; omega
  | succ f ih =>
    intro i hi hf
    unfold initGo
    rw [htaken i (by omega)]
    simp only [if_true]
    by_cases hlast : i = maxPeers - 1
    · rw [if_pos hlast]
    · rw [if_neg hlast]
      exact ih (i + 1) (by omega) (by omega)

/-- C5: identity acquisition tries baseToken+0 through baseToken+(maxPeers-1)
in order; when every candidate below i is taken and candidate i is free, it
claims candidate i; when all maxPeers candidates are taken (and there is at
least one candidate) it fails with the namespace-exhausted error. -/
theorem c5_identity_acquisition (taken : List String) (baseToken : String)
    (maxPeers : Nat) :
    (∀ i, i < maxPeers →
      (∀ j, j < i → taken.contains (baseToken ++ toString j) = true) →
      taken.contains (baseToken ++ toString i) = false →
      initAcquire taken baseToken maxPeers =
        Except.ok (some (baseToken ++ toString i))) ∧
    (0 < maxPeers →
      (∀ i, i < maxPeers → taken.contains (baseToken ++ toString i) = true) →
      initAcquire taken baseToken maxPeers =
        Except.error "All peer IDs are unavailable") := by
  constructor
  · intro i hi hbelow hfree
    exact initGo_reaches_free taken baseToken maxPeers i hi hbelow hfree maxPeers 0
      (by omega) (by omega)
  · intro hpos hall
    exact initGo_exhausted taken baseToken maxPeers hall maxPeers 0 (by omega) (by omega)

theorem c5_identity_acquisition_witness :
    initAcquire ["X-0", "X-1"] "X-" 3 = Except.ok (some ("X-" ++ toString 2)) ∧
    initAcquire ["X-0", "X-1", "X-2"] "X-" 3 =
      Except.error "All peer IDs are unavailable" :=
  ⟨(c5_identity_acquisition ["X-0", "X-1"] "X-" 3).1 2 (by decide) (by decide) (by decide),
   (c5_identity_acquisition ["X-0", "X-1", "X-2"] "X-" 3).2 (by decide) (by decide)⟩

theorem journalPut_fresh_sublist (j : List (JKey × OperateRecord)) (k : JKey)
    (r : OperateRecord) (h : ∀ p ∈ j, p.1 ≠ k) :
    List.Sublist (j.map Prod.snd) ((journalPut j k r).map Prod.snd) := by
  induction j with
  | nil => simp [journalPut]
  | cons p rest ih =>
    have hp : p.1 ≠ k := h p (List.mem_cons_self p rest)
    unfold journalPut
    rw [if_neg hp]
    by_cases hkl : jkeyLt k p.1 = true
    · rw [if_pos hkl]
      simp only [List.map_cons]
      exact List.Sublist.cons r (List.Sublist.refl _)
    · rw [if_neg hkl]
      simp only [List.map_cons]
      exact List.Sublist.cons₂ p.2 (ih (fun q hq => h q (List.mem_cons_of_mem p hq)))

theorem idbWrite_true_journal (db : DBState) (storeName : String) (op : Operate)
    (key : Option String) (data : Option Payload) (rid : String) (now : Nat)
    (db' : DBState)
    (h : idbWrite db storeName op key data true rid now = Except.ok db') :
    db'.journal =
      journalPut db.journal (JKey.num db.nextAuto)
        (mkOperateRecord rid now storeName op (recordedKey op key data)
          (recordedData op data)) ∧
    db'.nextAuto = db.nextAuto + 1 := by
  unfold idbWrite at h
  cases happ : applyWrite (getStore db.stores storeName) op key data with
  | error e => rw [happ] at h; cases h
  | ok s =>
    rw [happ] at h
    simp only [if_true, Except.ok.injEq] at h
    subst h
    exact ⟨rfl, rfl⟩

theorem autoFresh_ne (db : DBState) (h : autoFresh db = true) :
    ∀ p ∈ db.journal, p.1 ≠ JKey.num db.nextAuto := by
  intro p hp hcontra
  have := List.all_eq_true.mp h p hp
  rw [hcontra] at this
  simp at this

theorem journaled_write_journal_sublist (db : DBState) (storeName : String)
    (op : Operate) (key : Option String) (data : Option Payload) (rid : String)
    (now : Nat) (h : autoFresh db = true) :
    List.Sublist (getAllJournal db)
      (getAllJournal
        (match idbWrite db storeName op key data true rid now with
        | Except.ok d => d
        | Except.error _ => db)) := by
  cases hw : idbWrite db storeName op key data true rid now with
  | error e => exact List.Sublist.refl _
  | ok db1 =>
    have hj := (idbWrite_true_journal db storeName op key data rid now db1 hw).1
    unfold getAllJournal
    rw [hj]
    exact journalPut_fresh_sublist db.journal _ _ (autoFresh_ne db h)

theorem getStore_setStore (st : List (String × Store)) (n : String) (s : Store) :
    getStore (setStore st n s) n = s := by
  induction st with
  | nil => simp [setStore, getStore]
  | cons p rest ih =>
    by_cases hp : p.1 = n
    · simp [setStore, getStore, List.any_cons, hp]
    · by_cases hr : rest.any (fun q => q.1 == n) = true
      · simp only [setStore, List.any_cons, hp, hr] at ih ⊢
        simp only [beq_iff_eq, hp, Bool.false_or, hr, if_true, List.map_cons]
        simp only [getStore, List.find?_cons, beq_iff_eq, hp, if_neg hp]
        simp only [getStore, List.find?] at ih
        simpa [hp] using ih
      · simp only [setStore, List.any_cons, hp, hr] at ih ⊢
        simp only [beq_iff_eq, hp, Bool.false_or, if_neg, List.map_cons]
        simp only [getStore, List.find?_cons, beq_iff_eq, hp, if_neg hp]
        simp only [getStore] at ih
        simpa [hp, hr] using ih

theorem silentRun_journal (db : DBState) (n : String) (op : Operate)
    (key : Option String) (data : Option Payload) :
    (silentRun db n op key data).journal = db.journal := by
  unfold silentRun
  cases hw : idbWrite db n op key data false "" 0 with
  | error e => rfl
  | ok db1 =>
    simp only [Except.toOption, Option.getD]
    exact (idbWrite_false_journal db n op key data "" 0 db1 hw).1

theorem silentRun_add_store (db : DBState) (n : String) (p : Payload)
    (h : storeHas (getStore db.stores n) p.inlineKey = false) :
    getStore (silentRun db n Operate.add none (some p)).stores n =
      getStore db.stores n ++ [(p.inlineKey, p)] := by
  unfold silentRun idbWrite
  simp only [applyWrite, h, Bool.false_eq_true, if_false, Except.toOption, Option.getD]
  exact getStore_setStore db.stores n _

theorem silentRun_put_store (db : DBState) (n : String) (p : Payload) :
    getStore (silentRun db n Operate.put none (some p)).stores n =
      storePut (getStore db.stores n) p.inlineKey p := by
  unfold silentRun idbWrite
  simp only [applyWrite, Option.getD, Except.toOption]
  exact getStore_setStore db.stores n _

/-- C7 corrected: a received Response carrying a single already-resolved
operation is applied silently (recordOperate false, journal untouched) to
the store named by the message id, without running diff-merge, only when the
operate field is Add or Put; a Response carrying a Delete or Clear operate is
ignored (no mutation at all). -/
theorem c7_only_add_put_applied (db : DBState) (a b : String) (p : Payload)
    (d : MsgData) :
    ((dataHandler db ⟨MsgType.response, a, b, "todoList", some Operate.add,
        MsgData.payload p⟩).journal = db.journal ∧
      (storeHas (getStore db.stores "todoList") p.inlineKey = false →
        getStore (dataHandler db ⟨MsgType.response, a, b, "todoList", some Operate.add,
          MsgData.payload p⟩).stores "todoList" =
          getStore db.stores "todoList" ++ [(p.inlineKey, p)])) ∧
    ((dataHandler db ⟨MsgType.response, a, b, "todoList", some Operate.put,
        MsgData.payload p⟩).journal = db.journal ∧
      getStore (dataHandler db ⟨MsgType.response, a, b, "todoList", some Operate.put,
        MsgData.payload p⟩).stores "todoList" =
        storePut (getStore db.stores "todoList") p.inlineKey p) ∧
    dataHandler db ⟨MsgType.response, a, b, "todoList", some Operate.delete, d⟩ = db ∧
    dataHandler db ⟨MsgType.response, a, b, "todoList", some Operate.clear, d⟩ = db := by
  refine ⟨⟨?_, ?_⟩, ⟨?_, ?_⟩, rfl, rfl⟩
  · exact silentRun_journal db "todoList" Operate.add none (some p)
  · intro h
    exact silentRun_add_store db "todoList" p h
  · exact silentRun_journal db "todoList" Operate.put none (some p)
  · exact silentRun_put_store db "todoList" p

theorem c7_only_add_put_applied_witness :
    storeHas (getStore (⟨[("todoList", [("t1", ⟨"t1", "p"⟩)])], [], 1⟩ : DBState).stores
      "todoList") "t2" = false ∧
    getStore (dataHandler (⟨[("todoList", [("t1", ⟨"t1", "p"⟩)])], [], 1⟩ : DBState)
      ⟨MsgType.response, "peerA", "peerB", "todoList", some Operate.add,
        MsgData.payload ⟨"t2", "q"⟩⟩).stores "todoList" =
      getStore (⟨[("todoList", [("t1", ⟨"t1", "p"⟩)])], [], 1⟩ : DBState).stores
        "todoList" ++ [("t2", ⟨"t2", "q"⟩)] ∧
    dataHandler (⟨[("todoList", [("t1", ⟨"t1", "p"⟩)])], [], 1⟩ : DBState)
      ⟨MsgType.response, "peerA", "peerB", "todoList", some Operate.clear,
        MsgData.none⟩ = (⟨[("todoList", [("t1", ⟨"t1", "p"⟩)])], [], 1⟩ : DBState) :=
  ⟨by decide,
   ((c7_only_add_put_applied (⟨[("todoList", [("t1", ⟨"t1", "p"⟩)])], [], 1⟩ : DBState)
      "peerA" "peerB" ⟨"t2", "q"⟩ MsgData.none).1).2 (by decide),
   ((c7_only_add_put_applied (⟨[("todoList", [("t1", ⟨"t1", "p"⟩)])], [], 1⟩ : DBState)
      "peerA" "peerB" ⟨"t2", "q"⟩ MsgData.none).2).2.2⟩

def pairRec (r : OperateRecord) : String × OperateRecord := (r.id, r)

theorem foldl_mapSet_eq (rs : List OperateRecord) :
    ∀ acc : List (String × OperateRecord),
      ((acc.map Prod.fst) ++ rs.map OperateRecord.id).Nodup →
      rs.foldl mapSet acc = acc ++ rs.map pairRec := by
  induction rs with
  | nil => intro acc h; simp
  | cons r rest ih =>
    intro acc h
    have hnotin : r.id ∉ acc.map Prod.fst := by
      rw [List.nodup_append] at h
      intro hc
      exact h.2.2 hc (List.mem_cons_self _ _)
    have hany : acc.any (fun p => p.1 == r.id) = false := by
      rw [List.any_eq_false]
      intro p hp
      simp only [beq_iff_eq]
      intro hc
      exact hnotin (hc ▸ List.mem_map_of_mem Prod.fst hp)
    rw [List.foldl_cons]
    have hset : mapSet acc r = acc ++ [pairRec r] := by
      unfold mapSet
      rw [hany]
      simp [pairRec]
    rw [hset, ih]
    · simp
    · simpa [pairRec] using h

theorem toMap_eq (rs : List OperateRecord) (h : (rs.map OperateRecord.id).Nodup) :
    toMap rs = rs.map pairRec :=
  foldl_mapSet_eq rs [] (by simpa using h)

theorem mapHas_pair_eq_false (rs : List OperateRecord) (i : String)
    (h : ∀ y ∈ rs, y.id ≠ i) : mapHas (rs.map pairRec) i = false := by
  rw [mapHas, List.any_eq_false]
  intro p hp
  simp only [beq_iff_eq]
  rcases List.mem_map.mp hp with ⟨y, hy, rfl⟩
  exact h y hy

theorem mapHas_pair_eq_true (rs : List OperateRecord) (i : String) (y : OperateRecord)
    (hy : y ∈ rs) (hid : y.id = i) : mapHas (rs.map pairRec) i = true := by
  rw [mapHas, List.any_eq_true]
  exact ⟨pairRec y, List.mem_map_of_mem pairRec hy, by simp [pairRec, hid]⟩

theorem mapGet_pair_eq_none (rs : List OperateRecord) (i : String)
    (h : ∀ y ∈ rs, y.id ≠ i) : mapGet (rs.map pairRec) i = none := by
  unfold mapGet
  rw [List.find?_eq_none.mpr]
  · rfl
  · intro p hp
    simp only [beq_iff_eq]
    rcases List.mem_map.mp hp with ⟨y, hy, rfl⟩
    exact h y hy

theorem diffSelect_disjoint_perm (l r : List OperateRecord)
    (hl : (l.map OperateRecord.id).Nodup) (hr : (r.map OperateRecord.id).Nodup)
    (hdisj : ∀ i ∈ l.map OperateRecord.id, i ∉ r.map OperateRecord.id) :
    List.Perm (diffSelect l r) (l ++ r) := by
  unfold diffSelect
  rw [toMap_eq l hl, toMap_eq r hr]
  dsimp only
  have h1 : (r.map pairRec).filter (fun p => !mapHas (l.map pairRec) p.1) = r.map pairRec := by
    rw [List.filter_eq_self]
    intro p hp
    rcases List.mem_map.mp hp with ⟨x, hx, rfl⟩
    have : mapHas (l.map pairRec) (pairRec x).1 = false := by
      apply mapHas_pair_eq_false
      intro y hy hc
      have hc2 : y.id = x.id := hc
      exact hdisj y.id (List.mem_map_of_mem OperateRecord.id hy)
        (hc2 ▸ List.mem_map_of_mem OperateRecord.id hx)
    rw [this]
    rfl
  have h2 : (l.map pairRec).filter (fun p => !mapHas (r.map pairRec) p.1) = l.map pairRec := by
    rw [List.filter_eq_self]
    intro p hp
    rcases List.mem_map.mp hp with ⟨x, hx, rfl⟩
    have : mapHas (r.map pairRec) (pairRec x).1 = false := by
      apply mapHas_pair_eq_false
      intro y hy hc
      have hc2 : y.id = x.id := hc
      exact hdisj x.id (List.mem_map_of_mem OperateRecord.id hx)
        (hc2 ▸ List.mem_map_of_mem OperateRecord.id hy)
    rw [this]
    rfl
  have h3 : (l.map pairRec).flatMap
      (fun p => sharedPush p.2 (mapGet (r.map pairRec) p.1)) = [] := by
    rw [List.flatMap_eq_nil_iff]
    intro p hp
    rcases List.mem_map.mp hp with ⟨x, hx, rfl⟩
    have : mapGet (r.map pairRec) (pairRec x).1 = none := by
      apply mapGet_pair_eq_none
      intro y hy hc
      have hc2 : y.id = x.id := hc
      exact hdisj x.id (List.mem_map_of_mem OperateRecord.id hx)
        (hc2 ▸ List.mem_map_of_mem OperateRecord.id hy)
    rw [this]
    rfl
  rw [h1, h2, h3]
  have hmapsnd : ∀ xs : List OperateRecord, (xs.map pairRec).map Prod.snd = xs := by
    intro xs
    rw [List.map_map]
    exact List.map_id xs
  rw [hmapsnd, hmapsnd, List.append_nil]
  exact (List.perm_insertionSort _ _).trans List.perm_append_comm

def journalHasId (db : DBState) (s : String) : Prop :=
  ∃ v, (JKey.str s, v) ∈ db.journal ∧ v.id = s

theorem journalPut_self_mem (j : List (JKey × OperateRecord)) (k : JKey)
    (r : OperateRecord) : (k, r) ∈ journalPut j k r := by
  induction j with
  | nil => simp [journalPut]
  | cons p rest ih =>
    unfold journalPut
    by_cases h1 : p.1 = k
    · rw [if_pos h1]; exact List.mem_cons_self _ _
    · rw [if_neg h1]
      by_cases h2 : jkeyLt k p.1 = true
      · rw [if_pos h2]; exact List.mem_cons_self _ _
      · rw [if_neg h2]; exact List.mem_cons_of_mem _ ih

theorem journalPut_mem_of_ne (j : List (JKey × OperateRecord)) (k k' : JKey)
    (r r' : OperateRecord) (h : (k', r') ∈ j) (hne : k' ≠ k) :
    (k', r') ∈ journalPut j k r := by
  induction j with
  | nil => cases h
  | cons p rest ih =>
    unfold journalPut
    by_cases h1 : p.1 = k
    · rw [if_pos h1]
      rcases List.mem_cons.mp h with heq | hmem
      · have hkk : k' = k := by rw [← heq] at h1; exact h1
        exact absurd hkk hne
      · exact List.mem_cons_of_mem _ hmem
    · rw [if_neg h1]
      by_cases h2 : jkeyLt k p.1 = true
      · rw [if_pos h2]
        exact List.mem_cons_of_mem _ h
      · rw [if_neg h2]
        rcases List.mem_cons.mp h with heq | hmem
        · rw [heq]; exact List.mem_cons_self _ _
        · exact List.mem_cons_of_mem _ (ih hmem)

theorem journalHasId_diffApplyOne (db : DBState) (op : OperateRecord) (s : String)
    (h : journalHasId db s) : journalHasId (diffApplyOne db op) s := by
  unfold diffApplyOne
  cases hd : diffStoreApply db op with
  | error e => exact h
  | ok db1 =>
    rcases h with ⟨v, hv, hid⟩
    have hj : db1.journal = db.journal := (diffStoreApply_journal db op db1 hd).1
    unfold journalPutById journalHasId
    by_cases hs : s = op.id
    · subst hs
      exact ⟨op, journalPut_self_mem _ _ _, rfl⟩
    · refine ⟨v, ?_, hid⟩
      exact journalPut_mem_of_ne _ _ _ _ _ (hj ▸ hv) (by simp [hs])

theorem journalHasId_diffApplyAll (db : DBState) (ops : List OperateRecord) (s : String)
    (h : journalHasId db s) : journalHasId (diffApplyAll db ops) s := by
  induction ops generalizing db with
  | nil => exact h
  | cons a rest ih => exact ih (diffApplyOne db a) (journalHasId_diffApplyOne db a s h)

theorem specAppliedCount_le (db : DBState) (ops : List OperateRecord) :
    specAppliedCount db ops ≤ ops.length := by
  induction ops generalizing db with
  | nil => simp [specAppliedCount]
  | cons op rest ih =>
    unfold specAppliedCount
    cases hd : diffStoreApply db op with
    | ok db1 =>
      simp only [List.length_cons]
      have := ih (journalPutById db1 op)
      omega
    | error e =>
      simp only [List.length_cons]
      have := ih db
      omega

theorem diffApplyAll_journal_covers (ops : List OperateRecord) :
    ∀ db : DBState, specAppliedCount db ops = ops.length →
      ∀ op ∈ ops, journalHasId (diffApplyAll db ops) op.id := by
  induction ops with
  | nil => intro db h op hop; cases hop
  | cons a rest ih =>
    intro db h op hop
    unfold specAppliedCount at h
    cases hd : diffStoreApply db a with
    | error e =>
      rw [hd] at h
      have hle := specAppliedCount_le db rest
      simp only [List.length_cons] at h
      omega
    | ok db1 =>
      rw [hd] at h
      simp only [List.length_cons] at h
      have htail : specAppliedCount (journalPutById db1 a) rest = rest.length := by omega
      have hstep : diffApplyAll db (a :: rest) = diffApplyAll (journalPutById db1 a) rest := by
        show diffApplyAll (diffApplyOne db a) rest = _
        unfold diffApplyOne
        rw [hd]
      rw [hstep]
      rcases List.mem_cons.mp hop with heq | hmem
      · subst heq
        exact journalHasId_diffApplyAll _ rest op.id
          ⟨op, journalPut_self_mem _ _ _, rfl⟩
      · exact ih (journalPutById db1 a) htail op hmem

/-- C2: for local and remote journals with disjoint id sets (ids unique on
each side, every application succeeding), diff-merge selects exactly the
union of the two record sequences (a permutation of local ++ remote, nothing
else), and after the merge is applied the journal holds an entry keyed by
every id of both sides; by the symmetry of the statement in the two journals
this covers both peers' runs. -/
theorem c2_disjoint_union_selected (db : DBState) (l r : List OperateRecord)
    (hl : (l.map OperateRecord.id).Nodup) (hr : (r.map OperateRecord.id).Nodup)
    (hdisj : ∀ i ∈ l.map OperateRecord.id, i ∉ r.map OperateRecord.id)
    (hok : specAppliedCount db (diffSelect l r) = (diffSelect l r).length) :
    List.Perm (diffSelect l r) (l ++ r) ∧
    ∀ x ∈ l ++ r, journalHasId (diffRun db l r).1 x.id := by
  have hperm := diffSelect_disjoint_perm l r hl hr hdisj
  refine ⟨hperm, fun x hx => ?_⟩
  have hmem : x ∈ diffSelect l r := hperm.mem_iff.mpr hx
  exact diffApplyAll_journal_covers (diffSelect l r) db hok x hmem

theorem c2_disjoint_union_selected_witness :
    List.Perm (diffSelect [(⟨"ida", 1, "todoList", "todoList", Operate.put, some "a", some ⟨"a", "A"⟩⟩ : OperateRecord)]
      [⟨"idb", 2, "todoList", "todoList", Operate.put, some "b", some ⟨"b", "B"⟩⟩])
      ([⟨"ida", 1, "todoList", "todoList", Operate.put, some "a", some ⟨"a", "A"⟩⟩] ++
       [⟨"idb", 2, "todoList", "todoList", Operate.put, some "b", some ⟨"b", "B"⟩⟩]) ∧
    ∀ x ∈ ([⟨"ida", 1, "todoList", "todoList", Operate.put, some "a", some ⟨"a", "A"⟩⟩] ++
       [(⟨"idb", 2, "todoList", "todoList", Operate.put, some "b", some ⟨"b", "B"⟩⟩ : OperateRecord)]),
      journalHasId (diffRun (⟨[], [], 1⟩ : DBState)
        [⟨"ida", 1, "todoList", "todoList", Operate.put, some "a", some ⟨"a", "A"⟩⟩]
        [⟨"idb", 2, "todoList", "todoList", Operate.put, some "b", some ⟨"b", "B"⟩⟩]).1 x.id :=
  c2_disjoint_union_selected _ _ _ (by decide) (by decide) (by decide) (by decide)

theorem mapGet_pair_id (rs : List OperateRecord) (s : String) (v : OperateRecord)
    (h : mapGet (rs.map pairRec) s = some v) : v.id = s := by
  unfold mapGet at h
  cases hf : (rs.map pairRec).find? (fun p => p.1 == s) with
  | none => rw [hf] at h; cases h
  | some p =>
    rw [hf] at h
    have hpred := List.find?_some hf
    have hmem := List.mem_of_find?_eq_some hf
    rcases List.mem_map.mp hmem with ⟨y, hy, rfl⟩
    have hv : y = v := by
      simpa [pairRec] using h
    have hys : y.id = s := by
      simpa [pairRec] using hpred
    rw [← hv]
    exact hys

theorem mapGet_pair_eq_some (rs : List OperateRecord) (i : String) (r : OperateRecord)
    (hnd : (rs.map OperateRecord.id).Nodup) (hr : r ∈ rs) (hid : r.id = i) :
    mapGet (rs.map pairRec) i = some r := by
  induction rs with
  | nil => cases hr
  | cons a rest ih =>
    simp only [List.map_cons, List.nodup_cons] at hnd
    by_cases ha : a.id = i
    · have hra : r = a := by
        rcases List.mem_cons.mp hr with rfl | hm
        · rfl
        · exfalso
          apply hnd.1
          rw [ha, ← hid]
          exact List.mem_map_of_mem OperateRecord.id hm
      subst hra
      unfold mapGet
      simp [pairRec, List.find?_cons, ha]
    · have hm : r ∈ rest := by
        rcases List.mem_cons.mp hr with rfl | hm
        · exact absurd hid ha
        · exact hm
      have := ih hnd.2 hm
      unfold mapGet at this ⊢
      have hbeq : ((pairRec a).1 == i) = false := by simp [pairRec, ha]
      simp only [List.map_cons, List.find?_cons, hbeq]
      exact this

theorem sharedPush_mem (x : OperateRecord) (o : Option OperateRecord) (y : OperateRecord)
    (hy : y ∈ sharedPush x o) : y = x ∨ o = some y := by
  cases o with
  | none => cases hy
  | some r =>
    unfold sharedPush at hy
    have hy2 : y ∈
        (if x.timestamp > r.timestamp then [x]
         else if r.timestamp > x.timestamp then [r] else []) ++
        (if r.operateType = Operate.delete ∧ ¬x.operateType = Operate.delete then [r]
         else if x.operateType = Operate.delete ∧ ¬r.operateType = Operate.delete then [x]
         else []) := hy
    rcases List.mem_append.mp hy2 with h1 | h1
    · by_cases ha : x.timestamp > r.timestamp
      · rw [if_pos ha] at h1
        exact Or.inl (List.mem_singleton.mp h1)
      · rw [if_neg ha] at h1
        by_cases hb : r.timestamp > x.timestamp
        · rw [if_pos hb] at h1
          exact Or.inr (by rw [List.mem_singleton.mp h1])
        · rw [if_neg hb] at h1
          cases h1
    · by_cases ha : r.operateType = Operate.delete ∧ ¬x.operateType = Operate.delete
      · rw [if_pos ha] at h1
        exact Or.inr (by rw [List.mem_singleton.mp h1])
      · rw [if_neg ha] at h1
        by_cases hb : x.operateType = Operate.delete ∧ ¬r.operateType = Operate.delete
        · rw [if_pos hb] at h1
          exact Or.inl (List.mem_singleton.mp h1)
        · rw [if_neg hb] at h1
          cases h1

theorem sharedPush_filter_ne (rs : List OperateRecord) (x : OperateRecord) (i : String)
    (hx : x.id ≠ i) :
    (sharedPush x (mapGet (rs.map pairRec) x.id)).filter (fun y => y.id == i) = [] := by
  rw [List.filter_eq_nil_iff]
  intro y hy
  simp only [beq_iff_eq]
  rcases sharedPush_mem x _ y hy with rfl | hsome
  · exact hx
  · have hyx : y.id = x.id := mapGet_pair_id rs x.id y hsome
    intro hc
    exact hx (by rw [← hyx]; exact hc)

theorem flatMap_sharedPush_filter_none (xs rs : List OperateRecord) (i : String)
    (hids : ∀ x ∈ xs, x.id ≠ i) :
    ((xs.map pairRec).flatMap (fun p => sharedPush p.2 (mapGet (rs.map pairRec) p.1))).filter
      (fun y => y.id == i) = [] := by
  induction xs with
  | nil => rfl
  | cons a rest ih =>
    simp only [List.map_cons, List.flatMap_cons, List.filter_append]
    rw [show (pairRec a).2 = a from rfl, show (pairRec a).1 = a.id from rfl]
    rw [sharedPush_filter_ne rs a i (hids a (List.mem_cons_self _ _))]
    rw [ih (fun x hx => hids x (List.mem_cons_of_mem a hx))]
    rfl

theorem flatMap_sharedPush_filter_single (xs rs : List OperateRecord) (i : String)
    (lrec : OperateRecord) (hmem : lrec ∈ xs) (hid : lrec.id = i)
    (hnd : (xs.map OperateRecord.id).Nodup) :
    ((xs.map pairRec).flatMap (fun p => sharedPush p.2 (mapGet (rs.map pairRec) p.1))).filter
      (fun y => y.id == i) =
    (sharedPush lrec (mapGet (rs.map pairRec) i)).filter (fun y => y.id == i) := by
  induction xs with
  | nil => cases hmem
  | cons a rest ih =>
    simp only [List.map_cons, List.nodup_cons] at hnd
    simp only [List.map_cons, List.flatMap_cons, List.filter_append]
    rw [show (pairRec a).2 = a from rfl, show (pairRec a).1 = a.id from rfl]
    by_cases ha : a.id = i
    · have haLrec : lrec = a := by
        rcases List.mem_cons.mp hmem with rfl | hm
        · rfl
        · exfalso
          apply hnd.1
          rw [ha, ← hid]
          exact List.mem_map_of_mem OperateRecord.id hm
      subst haLrec
      rw [flatMap_sharedPush_filter_none rest rs i ?hrest]
      case hrest =>
        intro x hx hc
        apply hnd.1
        rw [ha, ← hc]
        exact List.mem_map_of_mem OperateRecord.id hx
      rw [List.append_nil, hid]
    · have hm : lrec ∈ rest := by
        rcases List.mem_cons.mp hmem with rfl | hm
        · exact absurd hid ha
        · exact hm
      rw [sharedPush_filter_ne rs a i ha, List.nil_append]
      exact ih hm hnd.2

/-- C3: for an id present in both journals whose two records have differing
timestamps and to which the delete-override does not apply (neither or both
records are deletes), diff-merge selects exactly one record for that id, the
one with the larger timestamp. -/
theorem c3_larger_timestamp_wins (lRecs rRecs : List OperateRecord) (i : String)
    (lrec rrec : OperateRecord)
    (hlmem : lrec ∈ lRecs) (hrmem : rrec ∈ rRecs)
    (hlid : lrec.id = i) (hrid : rrec.id = i)
    (hl : (lRecs.map OperateRecord.id).Nodup) (hr : (rRecs.map OperateRecord.id).Nodup)
    (hts : lrec.timestamp ≠ rrec.timestamp)
    (hdel : lrec.operateType = Operate.delete ↔ rrec.operateType = Operate.delete) :
    (diffSelect lRecs rRecs).filter (fun y => y.id == i) =
      [if lrec.timestamp > rrec.timestamp then lrec else rrec] := by
  apply List.perm_singleton.mp
  unfold diffSelect
  rw [toMap_eq lRecs hl, toMap_eq rRecs hr]
  dsimp only
  refine (List.Perm.filter _ (List.perm_insertionSort _ _)).trans ?_
  rw [List.filter_append, List.filter_append]
  have h1 : (((rRecs.map pairRec).filter
      (fun p => !mapHas (lRecs.map pairRec) p.1)).map Prod.snd).filter
        (fun y => y.id == i) = [] := by
    rw [List.filter_eq_nil_iff]
    intro y hy
    rcases List.mem_map.mp hy with ⟨p, hp, rfl⟩
    rcases List.mem_filter.mp hp with ⟨hpmem, hppred⟩
    rcases List.mem_map.mp hpmem with ⟨x, hx, rfl⟩
    simp only [beq_iff_eq]
    intro hc
    have hhas : mapHas (lRecs.map pairRec) (pairRec x).1 = true := by
      have hxi : (pairRec x).1 = i := hc
      rw [hxi]
      exact mapHas_pair_eq_true lRecs i lrec hlmem hlid
    rw [hhas] at hppred
    cases hppred
  have h2 : (((lRecs.map pairRec).filter
      (fun p => !mapHas (rRecs.map pairRec) p.1)).map Prod.snd).filter
        (fun y => y.id == i) = [] := by
    rw [List.filter_eq_nil_iff]
    intro y hy
    rcases List.mem_map.mp hy with ⟨p, hp, rfl⟩
    rcases List.mem_filter.mp hp with ⟨hpmem, hppred⟩
    rcases List.mem_map.mp hpmem with ⟨x, hx, rfl⟩
    simp only [beq_iff_eq]
    intro hc
    have hhas : mapHas (rRecs.map pairRec) (pairRec x).1 = true := by
      have hxi : (pairRec x).1 = i := hc
      rw [hxi]
      exact mapHas_pair_eq_true rRecs i rrec hrmem hrid
    rw [hhas] at hppred
    cases hppred
  have h3 : (((lRecs.map pairRec).flatMap
      (fun p => sharedPush p.2 (mapGet (rRecs.map pairRec) p.1))).filter
        (fun y => y.id == i)) =
      [if lrec.timestamp > rrec.timestamp then lrec else rrec] := by
    rw [flatMap_sharedPush_filter_single lRecs rRecs i lrec hlmem hlid hl]
    rw [mapGet_pair_eq_some rRecs i rrec hr hrmem hrid]
    have hd1 : ¬(rrec.operateType = Operate.delete ∧ ¬lrec.operateType = Operate.delete) := by
      rintro ⟨hdd, hdn⟩
      exact hdn (hdel.mpr hdd)
    have hd2 : ¬(lrec.operateType = Operate.delete ∧ ¬rrec.operateType = Operate.delete) := by
      rintro ⟨hdd, hdn⟩
      exact hdn (hdel.mp hdd)
    have hsp : sharedPush lrec (some rrec) =
        [if lrec.timestamp > rrec.timestamp then lrec else rrec] := by
      unfold sharedPush
      show ((if lrec.timestamp > rrec.timestamp then [lrec]
             else if rrec.timestamp > lrec.timestamp then [rrec] else []) ++
            (if rrec.operateType = Operate.delete ∧ ¬lrec.operateType = Operate.delete then [rrec]
             else if lrec.operateType = Operate.delete ∧ ¬rrec.operateType = Operate.delete then [lrec]
             else [])) = _
      rw [if_neg hd1, if_neg hd2, List.append_nil]
      by_cases hgt : lrec.timestamp > rrec.timestamp
      · rw [if_pos hgt, if_pos hgt]
      · have hlt : rrec.timestamp > lrec.timestamp := by omega
        rw [if_neg hgt, if_pos hlt, if_neg hgt]
    rw [hsp]
    have hwid : (if lrec.timestamp > rrec.timestamp then lrec else rrec).id = i := by
      split_ifs <;> assumption
    simp [hwid]
  rw [h1, h2, h3, List.nil_append, List.nil_append]

theorem c3_larger_timestamp_wins_witness :
    (⟨"s", 5, "todoList", "todoList", Operate.put, some "x", some ⟨"x", "L"⟩⟩ :
        OperateRecord).timestamp ≠
      (⟨"s", 9, "todoList", "todoList", Operate.put, some "x", some ⟨"x", "R"⟩⟩ :
        OperateRecord).timestamp ∧
    (diffSelect [⟨"s", 5, "todoList", "todoList", Operate.put, some "x", some ⟨"x", "L"⟩⟩]
        [⟨"s", 9, "todoList", "todoList", Operate.put, some "x", some ⟨"x", "R"⟩⟩]).filter
      (fun y => y.id == "s") =
      [if (⟨"s", 5, "todoList", "todoList", Operate.put, some "x", some ⟨"x", "L"⟩⟩ :
          OperateRecord).timestamp >
        (⟨"s", 9, "todoList", "todoList", Operate.put, some "x", some ⟨"x", "R"⟩⟩ :
          OperateRecord).timestamp
       then ⟨"s", 5, "todoList", "todoList", Operate.put, some "x", some ⟨"x", "L"⟩⟩
       else ⟨"s", 9, "todoList", "todoList", Operate.put, some "x", some ⟨"x", "R"⟩⟩] :=
  ⟨by decide,
   c3_larger_timestamp_wins
     [⟨"s", 5, "todoList", "todoList", Operate.put, some "x", some ⟨"x", "L"⟩⟩]
     [⟨"s", 9, "todoList", "todoList", Operate.put, some "x", some ⟨"x", "R"⟩⟩]
     "s"
     ⟨"s", 5, "todoList", "todoList", Operate.put, some "x", some ⟨"x", "L"⟩⟩
     ⟨"s", 9, "todoList", "todoList", Operate.put, some "x", some ⟨"x", "R"⟩⟩
     (by decide) (by decide) (by decide) (by decide) (by decide) (by decide)
     (by decide) (by decide)⟩

theorem journalKey_diffApplyOne (db : DBState) (op : OperateRecord) (k : JKey)
    (v : OperateRecord) (h : (k, v) ∈ db.journal) :
    ∃ v2, (k, v2) ∈ (diffApplyOne db op).journal := by
  unfold diffApplyOne
  cases hd : diffStoreApply db op with
  | error e => exact ⟨v, h⟩
  | ok db1 =>
    have hj : db1.journal = db.journal := (diffStoreApply_journal db op db1 hd).1
    unfold journalPutById
    by_cases hk : k = JKey.str op.id
    · refine ⟨op, ?_⟩
      rw [hk]
      exact journalPut_self_mem _ _ _
    · exact ⟨v, journalPut_mem_of_ne _ _ _ _ _ (hj ▸ h) hk⟩

theorem journalKey_diffApplyAll (db : DBState) (ops : List OperateRecord) (k : JKey)
    (h : ∃ v, (k, v) ∈ db.journal) :
    ∃ v2, (k, v2) ∈ (diffApplyAll db ops).journal := by
  induction ops generalizing db with
  | nil => exact h
  | cons a rest ih =>
    rcases h with ⟨v, hv⟩
    exact ih (diffApplyOne db a) (journalKey_diffApplyOne db a k v hv)

/-- C6 corrected: under the add, remove and update operations of the
todo-list composable the journal only gains records (every existing journal
entry is preserved, in order), and during sync rounds merge application only
appends or overwrites journal entries (every journal key present before a
diff run is still present afterwards, holding either the original record or
an overwriting winner, never deleted); the public clear operation however
clears the operates journal: afterwards it contains exactly the single
record that logs the clearing of the journal store itself. -/
theorem c6_journal_append_except_clear (db : DBState) (rid : String) (now : Nat)
    (text itemId : String) (item : Payload) (rid2 : String) (now2 : Nat)
    (h : autoFresh db = true) :
    List.Sublist (getAllJournal db) (getAllJournal (todoAdd db rid now text itemId)) ∧
    List.Sublist (getAllJournal db) (getAllJournal (todoRemove db rid now itemId)) ∧
    List.Sublist (getAllJournal db) (getAllJournal (todoUpdate db rid now item)) ∧
    (∀ (localRecords remoteRecords : List OperateRecord),
      ∀ p ∈ db.journal,
        ∃ v2, (p.1, v2) ∈ (diffRun db localRecords remoteRecords).1.journal) ∧
    getAllJournal (todoClear db rid now rid2 now2) =
      [mkOperateRecord rid2 now2 "operates" Operate.clear none none] := by
  refine ⟨?_, ?_, ?_, ?_, ?_⟩
  · unfold todoAdd
    exact journaled_write_journal_sublist db "todoList" Operate.add none
      (some ⟨itemId, text⟩) rid now h
  · unfold todoRemove
    exact journaled_write_journal_sublist db "todoList" Operate.delete
      (some itemId) none rid now h
  · unfold todoUpdate
    exact journaled_write_journal_sublist db "todoList" Operate.put none
      (some item) rid now h
  · intro localRecords remoteRecords p hp
    exact journalKey_diffApplyAll db (diffSelect localRecords remoteRecords) p.1
      ⟨p.2, hp⟩
  · unfold todoClear clearOperates journalAppend getAllJournal
    cases hw : idbWrite db "todoList" Operate.clear none none true rid now with
    | ok d => simp [journalPut]
    | error e => simp [journalPut]

theorem c6_journal_append_except_clear_witness :
    autoFresh (⟨[], [(JKey.num 0, ⟨"w0", 2, "todoList", "todoList", Operate.add, none, none⟩)], 1⟩ : DBState) = true ∧
    List.Sublist
      (getAllJournal (⟨[], [(JKey.num 0, ⟨"w0", 2, "todoList", "todoList", Operate.add, none, none⟩)], 1⟩ : DBState))
      (getAllJournal (todoAdd (⟨[], [(JKey.num 0, ⟨"w0", 2, "todoList", "todoList", Operate.add, none, none⟩)], 1⟩ : DBState) "r1" 5 "milk" "t1")) ∧
    (∃ v2, (JKey.num 0, v2) ∈
      (diffRun (⟨[], [(JKey.num 0, ⟨"w0", 2, "todoList", "todoList", Operate.add, none, none⟩)], 1⟩ : DBState)
        [⟨"w0", 2, "todoList", "todoList", Operate.add, none, none⟩]
        [⟨"w1", 3, "todoList", "todoList", Operate.put, some "k", some ⟨"k", "K"⟩⟩]).1.journal) ∧
    getAllJournal (todoClear (⟨[], [(JKey.num 0, ⟨"w0", 2, "todoList", "todoList", Operate.add, none, none⟩)], 1⟩ : DBState) "r2" 6 "r3" 7) =
      [mkOperateRecord "r3" 7 "operates" Operate.clear none none] :=
  ⟨by decide,
   (c6_journal_append_except_clear
      (⟨[], [(JKey.num 0, ⟨"w0", 2, "todoList", "todoList", Operate.add, none, none⟩)], 1⟩ : DBState)
      "r1" 5 "milk" "t1" ⟨"t1", "milk"⟩ "r3" 7 (by decide)).1,
   (c6_journal_append_except_clear
      (⟨[], [(JKey.num 0, ⟨"w0", 2, "todoList", "todoList", Operate.add, none, none⟩)], 1⟩ : DBState)
      "r1" 5 "milk" "t1" ⟨"t1", "milk"⟩ "r3" 7 (by decide)).2.2.2.1
      [⟨"w0", 2, "todoList", "todoList", Operate.add, none, none⟩]
      [⟨"w1", 3, "todoList", "todoList", Operate.put, some "k", some ⟨"k", "K"⟩⟩]
      (JKey.num 0, ⟨"w0", 2, "todoList", "todoList", Operate.add, none, none⟩)
      (by decide),
   (c6_journal_append_except_clear
      (⟨[], [(JKey.num 0, ⟨"w0", 2, "todoList", "todoList", Operate.add, none, none⟩)], 1⟩ : DBState)
      "r2" 6 "t" "t" ⟨"t", "t"⟩ "r3" 7 (by decide)).2.2.2.2⟩
